import Mathlib

/-!
Verification of the byte-source layer of the bincode deserializer
(`src/de/read.rs`): the `BincodeRead` contract and its two
implementations, `SliceReader` (borrowed in-memory slice) and
`IoReader` (blocking stream plus reusable scratch buffer).

Bytes are modelled as natural numbers and byte slices / buffers as
`List Nat`.  The serde visitor is modelled as a function from the span
handed over to an `Except` result, so that a visitor's own error is a
first-class value that the reader propagates.
-/

deriving instance DecidableEq for Except

namespace Bincode

/-- Kinds of I/O errors that this layer produces or propagates.
`UnexpectedEof` models `io::ErrorKind::UnexpectedEof`. -/
inductive IoErr where
  | UnexpectedEof
  | Other (code : Nat)
  deriving DecidableEq, Repr

/-- The bincode error kind (the variants this layer touches):
`Io` wraps an I/O error, `InvalidUtf8Encoding` carries the
`valid_up_to` offset of the `Utf8Error`, and `Custom` stands for any
error produced by the visitor itself, which this layer merely
propagates. -/
inductive ErrorKind where
  | Io (e : IoErr)
  | InvalidUtf8Encoding (validUpTo : Nat)
  | Custom (code : Nat)
  deriving DecidableEq, Repr

/-- `SliceReader::unexpected_eof()`: the error returned on a failed
availability check, `ErrorKind::Io(io::Error::new(UnexpectedEof, ""))`. -/
def unexpectedEof : ErrorKind := ErrorKind.Io IoErr.UnexpectedEof

/-- A serde visitor: receives the span of bytes (for the string path,
the UTF-8 bytes of the validated string) and returns a value or an
error of its own. -/
def Visitor (α : Type) : Type := List Nat → Except ErrorKind α

/-- Is `b` a UTF-8 continuation byte (`0x80..=0xBF`)? -/
def isUtf8Cont (b : Nat) : Bool := decide (0x80 ≤ b ∧ b ≤ 0xBF)

/-- Allowed range of the second byte of a 3-byte UTF-8 sequence whose
first byte is `b` (restricted for `0xE0` and `0xED` to exclude
overlong encodings and surrogates). -/
def utf8Second3 (b b1 : Nat) : Bool :=
  if b = 0xE0 then decide (0xA0 ≤ b1 ∧ b1 ≤ 0xBF)
  else if b = 0xED then decide (0x80 ≤ b1 ∧ b1 ≤ 0x9F)
  else isUtf8Cont b1

/-- Allowed range of the second byte of a 4-byte UTF-8 sequence whose
first byte is `b` (restricted for `0xF0` and `0xF4` to exclude
overlong encodings and values above U+10FFFF). -/
def utf8Second4 (b b1 : Nat) : Bool :=
  if b = 0xF0 then decide (0x90 ≤ b1 ∧ b1 ≤ 0xBF)
  else if b = 0xF4 then decide (0x80 ≤ b1 ∧ b1 ≤ 0x8F)
  else isUtf8Cont b1

/-- UTF-8 validation of the byte list starting at absolute offset `i`:
models `core::str::from_utf8`, returning `none` when the bytes are
valid and `some j` where `j` is the `valid_up_to` offset of the
resulting `Utf8Error` — the byte offset at which the first invalid
sequence starts — otherwise. -/
def utf8ValidateFrom (i : Nat) : List Nat → Option Nat
  | [] => none
  | b :: rest =>
    if b < 0x80 then utf8ValidateFrom (i + 1) rest
    else if 0xC2 ≤ b ∧ b ≤ 0xDF then
      match rest with
      | b1 :: rest2 =>
        if isUtf8Cont b1 then utf8ValidateFrom (i + 2) rest2 else some i
      | [] => some i
    else if 0xE0 ≤ b ∧ b ≤ 0xEF then
      match rest with
      | b1 :: b2 :: rest3 =>
        if utf8Second3 b b1 && isUtf8Cont b2 then utf8ValidateFrom (i + 3) rest3
        else some i
      | _ => some i
    else if 0xF0 ≤ b ∧ b ≤ 0xF4 then
      match rest with
      | b1 :: b2 :: b3 :: rest4 =>
        if utf8Second4 b b1 && isUtf8Cont b2 && isUtf8Cont b3 then
          utf8ValidateFrom (i + 4) rest4
        else some i
      | _ => some i
    else some i

/-- `core::str::from_utf8` on a whole byte list: `none` when valid,
`some validUpTo` otherwise. -/
def utf8Validate (l : List Nat) : Option Nat := utf8ValidateFrom 0 l

/-- `SliceReader<'storage>`: holds the remaining borrowed slice, which
shrinks from the front as bytes are consumed. -/
structure SliceReader where
  slice : List Nat
  deriving DecidableEq, Repr

namespace SliceReader

/-- `SliceReader::new` -/
def new (bytes : List Nat) : SliceReader := ⟨bytes⟩

/-- `SliceReader::forward_read_str`: fail with `unexpected_eof` when
`length` exceeds the remaining slice; validate the first `length`
bytes as UTF-8, failing with `InvalidUtf8Encoding` (and an unchanged
slice) when invalid; otherwise hand the borrowed string to the
visitor, advance the slice past `length` bytes, and return the
visitor's result. -/
def forward_read_str (r : SliceReader) (length : Nat) (visitor : Visitor α) :
    Except ErrorKind α × SliceReader :=
  if length > r.slice.length then
    (Except.error unexpectedEof, r)
  else
    match utf8Validate (r.slice.take length) with
    | some e => (Except.error (ErrorKind.InvalidUtf8Encoding e), r)
    | none =>
      let res := visitor (r.slice.take length)
      (res, ⟨r.slice.drop length⟩)

/-- `SliceReader::get_byte_buffer`: fail with `unexpected_eof` when
`length` exceeds the remaining slice; otherwise copy the first
`length` bytes into an owned buffer and advance the slice. -/
def get_byte_buffer (r : SliceReader) (length : Nat) :
    Except ErrorKind (List Nat) × SliceReader :=
  if length > r.slice.length then
    (Except.error unexpectedEof, r)
  else
    (Except.ok (r.slice.take length), ⟨r.slice.drop length⟩)

/-- `SliceReader::forward_read_bytes`: fail with `unexpected_eof` when
`length` exceeds the remaining slice; otherwise hand the first
`length` bytes to the visitor, advance the slice, and return the
visitor's result. -/
def forward_read_bytes (r : SliceReader) (length : Nat) (visitor : Visitor α) :
    Except ErrorKind α × SliceReader :=
  if length > r.slice.length then
    (Except.error unexpectedEof, r)
  else
    let res := visitor (r.slice.take length)
    (res, ⟨r.slice.drop length⟩)

/-- Modelled from the spec: the low-level `io::Read::read` for
`SliceReader` delegates to the slice `Read` implementation of
`core_io` (not part of this repository's sources): it copies
`min(destination length, remaining length)` bytes into the
destination, reports that count, and advances the slice by the same
amount.  The result carries the count and the bytes written. -/
def read (r : SliceReader) (outLen : Nat) : (Nat × List Nat) × SliceReader :=
  let n := min outLen r.slice.length
  ((n, r.slice.take n), ⟨r.slice.drop n⟩)

/-- Modelled from the spec: the low-level `io::Read::read_exact` for
`SliceReader` delegates to the slice `Read` implementation of
`core_io` (not part of this repository's sources): it fails with an
`UnexpectedEof` I/O error, without consuming anything, when the
remaining slice is shorter than the destination; otherwise it fills
the destination with the next `outLen` bytes and advances. -/
def read_exact (r : SliceReader) (outLen : Nat) :
    Except IoErr (List Nat) × SliceReader :=
  if r.slice.length < outLen then
    (Except.error IoErr.UnexpectedEof, r)
  else
    (Except.ok (r.slice.take outLen), ⟨r.slice.drop outLen⟩)

end SliceReader

/-- A `Vec<u8>`: the logical contents (`data`) together with the
allocated capacity (`cap`).  The Rust invariant `data.length ≤ cap` is
carried as a hypothesis where needed. -/
structure Buffer where
  data : List Nat
  cap : Nat
  deriving DecidableEq, Repr

namespace Buffer

/-- `Vec::new()`: empty, no allocation. -/
def empty : Buffer := ⟨[], 0⟩

/-- `Vec::reserve_exact(additional)`: does nothing when the spare
capacity already covers `additional`; otherwise grows the capacity to
exactly `len + additional` (the idealized allocator that grants
exactly what was asked). -/
def reserve_exact (b : Buffer) (additional : Nat) : Buffer :=
  if additional ≤ b.cap - b.data.length then b
  else ⟨b.data, b.data.length + additional⟩

/-- `Vec::set_len(n)`: sets the logical length without touching the
allocation.  Shrinking truncates the view; growing exposes
uninitialized storage, modelled as zero padding — `fill_buffer`
overwrites all of it before it can be observed on the success path. -/
def set_len (b : Buffer) (n : Nat) : Buffer :=
  ⟨if n ≤ b.data.length then b.data.take n
   else b.data ++ List.replicate (n - b.data.length) 0, b.cap⟩

end Buffer

/-- `IoReader<R>`: owns the underlying reader and the reusable scratch
buffer `temp_buffer`.  The generic reader `R` is modelled as a
deterministic byte stream: `read_exact(n)` consumes exactly the next
`n` bytes, or fails with an `UnexpectedEof` I/O error when fewer than
`n` remain (the post-error stream position is unspecified by the
contract; the model leaves it in place). -/
structure IoReader where
  stream : List Nat
  temp_buffer : Buffer
  deriving DecidableEq, Repr

namespace IoReader

/-- `IoReader::new`: wraps the stream with an empty scratch buffer. -/
def new (s : List Nat) : IoReader := ⟨s, Buffer.empty⟩

/-- `IoReader::fill_buffer(length)`: when `length` exceeds the
buffer's current logical length, reserve exactly the shortfall; set
the logical length to `length`; then `read_exact` from the stream into
the whole buffer, propagating the I/O error on failure. -/
def fill_buffer (r : IoReader) (length : Nat) : Except ErrorKind Unit × IoReader :=
  let current_length := r.temp_buffer.data.length
  let buf := if length > current_length then
      r.temp_buffer.reserve_exact (length - current_length)
    else r.temp_buffer
  let buf := buf.set_len length
  if length ≤ r.stream.length then
    (Except.ok (), ⟨r.stream.drop length, ⟨r.stream.take length, buf.cap⟩⟩)
  else
    (Except.error (ErrorKind.Io IoErr.UnexpectedEof), ⟨r.stream, buf⟩)

/-- `IoReader::forward_read_str`: fill the scratch buffer to `length`
(propagating a fill failure); validate the whole buffer as UTF-8,
failing with `InvalidUtf8Encoding` when invalid; otherwise hand the
string to the visitor and return its result. -/
def forward_read_str (r : IoReader) (length : Nat) (visitor : Visitor α) :
    Except ErrorKind α × IoReader :=
  match r.fill_buffer length with
  | (Except.error e, r1) => (Except.error e, r1)
  | (Except.ok _, r1) =>
    match utf8Validate r1.temp_buffer.data with
    | some e => (Except.error (ErrorKind.InvalidUtf8Encoding e), r1)
    | none => (visitor r1.temp_buffer.data, r1)

/-- `IoReader::get_byte_buffer`: fill the scratch buffer to `length`
(propagating a fill failure), then move the scratch buffer out to the
caller, replacing it with a fresh empty `Vec::new()`. -/
def get_byte_buffer (r : IoReader) (length : Nat) :
    Except ErrorKind (List Nat) × IoReader :=
  match r.fill_buffer length with
  | (Except.error e, r1) => (Except.error e, r1)
  | (Except.ok _, r1) =>
    (Except.ok r1.temp_buffer.data, ⟨r1.stream, Buffer.empty⟩)

/-- `IoReader::forward_read_bytes`: fill the scratch buffer to
`length` (propagating a fill failure), then hand the buffer's contents
to the visitor and return its result. -/
def forward_read_bytes (r : IoReader) (length : Nat) (visitor : Visitor α) :
    Except ErrorKind α × IoReader :=
  match r.fill_buffer length with
  | (Except.error e, r1) => (Except.error e, r1)
  | (Except.ok _, r1) => (visitor r1.temp_buffer.data, r1)

end IoReader

/-- Iterated `forward_read_bytes`: perform `n` successive reads of `k`
bytes each with the identity visitor, collecting the spans handed to
the visitor in order; `none` when any read fails. -/
def readBlocks (r : IoReader) (k : Nat) : Nat → Option (List (List Nat) × IoReader)
  | 0 => some ([], r)
  | Nat.succ n =>
    match r.forward_read_bytes k (fun bs => Except.ok bs) with
    | (Except.ok bs, r1) =>
      match readBlocks r1 k n with
      | some (l, r2) => some (bs :: l, r2)
      | none => none
    | (Except.error _, _) => none

/-!  ## Theorems -/

/-- Helper: validating the empty byte list succeeds. -/
theorem utf8ValidateFrom_nil (i : Nat) : utf8ValidateFrom i [] = none := rfl

/-- Helper: a fill within the stream bounds succeeds, leaving the
scratch buffer holding exactly the next `k` stream bytes and the
stream advanced past them (for some resulting capacity). -/
theorem fill_buffer_ok (s : List Nat) (buf : Buffer) (k : Nat) (hk : k ≤ s.length) :
    ∃ c, IoReader.fill_buffer ⟨s, buf⟩ k =
      (Except.ok (), ⟨s.drop k, ⟨s.take k, c⟩⟩) := by
  refine ⟨(if k > buf.data.length then buf.reserve_exact (k - buf.data.length)
    else buf).cap, ?_⟩
  unfold IoReader.fill_buffer
  simp [hk, Buffer.set_len]

/-- Helper: `forward_read_bytes` within the stream bounds hands the
visitor exactly the next `k` stream bytes and returns its result. -/
theorem io_forward_read_bytes_ok {α : Type} (s : List Nat) (buf : Buffer) (k : Nat)
    (hk : k ≤ s.length) (v : Visitor α) :
    ∃ c, IoReader.forward_read_bytes ⟨s, buf⟩ k v =
      (v (s.take k), ⟨s.drop k, ⟨s.take k, c⟩⟩) := by
  obtain ⟨c, hc⟩ := fill_buffer_ok s buf k hk
  exact ⟨c, by rw [IoReader.forward_read_bytes, hc]⟩

/-- C3: for every source, when the requested length is available but the
bytes are not valid UTF-8, `forward_read_str` fails with
`InvalidUtf8Encoding` carrying the byte offset of the first invalid
unit, and the visitor is never invoked (the result does not involve
the visitor at all); for the `SliceReader` the failure additionally
leaves the slice unchanged. -/
theorem claim3_read_str_invalid_utf8 {α : Type} (s t : List Nat) (k off offIo : Nat)
    (hk : k ≤ s.length) (hinv : utf8Validate (s.take k) = some off)
    (buf : Buffer) (hkt : k ≤ t.length)
    (hinvIo : utf8Validate (t.take k) = some offIo) (v : Visitor α) :
    SliceReader.forward_read_str ⟨s⟩ k v =
      (Except.error (ErrorKind.InvalidUtf8Encoding off), ⟨s⟩) ∧
    ∃ c, IoReader.forward_read_str ⟨t, buf⟩ k v =
      (Except.error (ErrorKind.InvalidUtf8Encoding offIo), ⟨t.drop k, ⟨t.take k, c⟩⟩) := by
  constructor
  · simp [SliceReader.forward_read_str, Nat.not_lt.mpr hk, hinv]
  · obtain ⟨c, hc⟩ := fill_buffer_ok t buf k hkt
    exact ⟨c, by rw [IoReader.forward_read_str, hc]; simp [hinvIo]⟩

/-- Witness for C3: a lone continuation byte `0x80` after a valid byte,
requested with `k = 2`, fails at offset 1 on both sources. -/
theorem claim3_read_str_invalid_utf8_witness :
    2 ≤ ([97, 0x80, 98] : List Nat).length ∧
    utf8Validate (([97, 0x80, 98] : List Nat).take 2) = some 1 ∧
    2 ≤ ([97, 0x80, 99] : List Nat).length ∧
    utf8Validate (([97, 0x80, 99] : List Nat).take 2) = some 1 ∧
    (SliceReader.forward_read_str ⟨[97, 0x80, 98]⟩ 2 (Except.ok : Visitor (List Nat)) =
        (Except.error (ErrorKind.InvalidUtf8Encoding 1), ⟨[97, 0x80, 98]⟩) ∧
      ∃ c, IoReader.forward_read_str ⟨[97, 0x80, 99], Buffer.empty⟩ 2
          (Except.ok : Visitor (List Nat)) =
        (Except.error (ErrorKind.InvalidUtf8Encoding 1),
         ⟨([97, 0x80, 99] : List Nat).drop 2, ⟨([97, 0x80, 99] : List Nat).take 2, c⟩⟩)) :=
  ⟨by decide, by decide, by decide, by decide,
    claim3_read_str_invalid_utf8 [97, 0x80, 98] [97, 0x80, 99] 2 1 1 (by decide)
      (by decide) Buffer.empty (by decide) (by decide) Except.ok⟩

/-- C4 counterexample: a scratch buffer with logical length 3 and
capacity 4 (reachable by a 4-byte read followed by a 3-byte read) and
a request of length 4: the request exceeds the current buffer by a
shortfall of 1, yet the capacity stays 4 — it does not grow by the
shortfall, because `reserve_exact` does nothing when the spare
capacity already suffices. -/
theorem claim4_fill_buffer_counterexample :
    4 > ([0, 0, 0] : List Nat).length ∧
    (IoReader.fill_buffer ⟨[5, 6, 7, 8], ⟨[0, 0, 0], 4⟩⟩ 4).2.temp_buffer.cap = 4 ∧
    ¬ (IoReader.fill_buffer ⟨[5, 6, 7, 8], ⟨[0, 0, 0], 4⟩⟩ 4).2.temp_buffer.cap =
        4 + (4 - ([0, 0, 0] : List Nat).length) := by
  decide

/-- C4 (amended): for an `IoReader` whose scratch buffer satisfies the
`Vec` invariant `length ≤ capacity`, `fill_buffer` reserves exactly
the shortfall beyond the current logical length when the request
exceeds it — so the capacity becomes `max(old capacity, requested
length)`, growing only when the old capacity is insufficient — sets
the logical length to exactly the requested length (shrinking it if
the request is smaller), and then performs an exact-read from the
stream, so that after a successful fill the scratch buffer holds
exactly the next `length` bytes of the stream. -/
theorem claim4_fill_buffer_reserve_and_fill (s : List Nat) (buf : Buffer) (k : Nat)
    (hinv : buf.data.length ≤ buf.cap) :
    (IoReader.fill_buffer ⟨s, buf⟩ k).2.temp_buffer.cap = max buf.cap k ∧
    (IoReader.fill_buffer ⟨s, buf⟩ k).2.temp_buffer.data.length = k ∧
    (k ≤ s.length →
      IoReader.fill_buffer ⟨s, buf⟩ k =
        (Except.ok (), ⟨s.drop k, ⟨s.take k, max buf.cap k⟩⟩)) := by
  have hcap : ((if k > buf.data.length then
      buf.reserve_exact (k - buf.data.length) else buf).set_len k).cap = max buf.cap k := by
    unfold Buffer.reserve_exact Buffer.set_len
    split_ifs <;> simp_all <;> omega
  have hlen : ((if k > buf.data.length then
      buf.reserve_exact (k - buf.data.length) else buf).set_len k).data.length = k := by
    unfold Buffer.reserve_exact Buffer.set_len
    split_ifs <;> simp_all <;> omega
  by_cases hks : k ≤ s.length
  · refine ⟨?_, ?_, fun _ => ?_⟩ <;>
      · unfold IoReader.fill_buffer
        simp only [if_pos hks]
        simp [← hcap, Buffer.set_len, List.length_take, Nat.min_eq_left hks]
  · refine ⟨?_, ?_, fun h => absurd h hks⟩ <;>
      · unfold IoReader.fill_buffer
        simp only [if_neg hks]
        simp [hcap, hlen]

/-- Witness for C4 (amended) at stream `[9, 9, 9]`, buffer of length 1
and capacity 2, request 3. -/
theorem claim4_fill_buffer_reserve_and_fill_witness :
    ([7] : List Nat).length ≤ 2 ∧ 3 ≤ ([9, 9, 9] : List Nat).length ∧
    (IoReader.fill_buffer ⟨[9, 9, 9], ⟨[7], 2⟩⟩ 3).2.temp_buffer.cap = max 2 3 ∧
    (IoReader.fill_buffer ⟨[9, 9, 9], ⟨[7], 2⟩⟩ 3).2.temp_buffer.data.length = 3 ∧
    IoReader.fill_buffer ⟨[9, 9, 9], ⟨[7], 2⟩⟩ 3 =
      (Except.ok (), ⟨([9, 9, 9] : List Nat).drop 3,
        ⟨([9, 9, 9] : List Nat).take 3, max 2 3⟩⟩) :=
  ⟨by decide, by decide,
    (claim4_fill_buffer_reserve_and_fill [9, 9, 9] ⟨[7], 2⟩ 3 (by decide)).1,
    (claim4_fill_buffer_reserve_and_fill [9, 9, 9] ⟨[7], 2⟩ 3 (by decide)).2.1,
    (claim4_fill_buffer_reserve_and_fill [9, 9, 9] ⟨[7], 2⟩ 3 (by decide)).2.2 (by decide)⟩

/-- C5: for an `IoReader` over a stream with fewer remaining bytes than
the requested length, each of `forward_read_str`, `forward_read_bytes`,
and `get_byte_buffer` fails by propagating the underlying I/O
end-of-stream error, and never succeeds with fewer bytes than
requested. -/
theorem claim5_io_short_stream {α : Type} (s : List Nat) (buf : Buffer) (k : Nat)
    (hk : s.length < k) (v : Visitor α) :
    (IoReader.forward_read_str ⟨s, buf⟩ k v).1 =
      Except.error (ErrorKind.Io IoErr.UnexpectedEof) ∧
    (IoReader.forward_read_bytes ⟨s, buf⟩ k v).1 =
      Except.error (ErrorKind.Io IoErr.UnexpectedEof) ∧
    (IoReader.get_byte_buffer ⟨s, buf⟩ k).1 =
      Except.error (ErrorKind.Io IoErr.UnexpectedEof) := by
  have hnk : ¬ k ≤ s.length := Nat.not_le.mpr hk
  have hf : IoReader.fill_buffer ⟨s, buf⟩ k =
      (Except.error (ErrorKind.Io IoErr.UnexpectedEof),
       ⟨s, (if k > buf.data.length then buf.reserve_exact (k - buf.data.length)
            else buf).set_len k⟩) := by
    unfold IoReader.fill_buffer
    simp [hnk]
  refine ⟨?_, ?_, ?_⟩
  · rw [IoReader.forward_read_str, hf]
  · rw [IoReader.forward_read_bytes, hf]
  · rw [IoReader.get_byte_buffer, hf]

/-- Witness for C5: a stream of 3 bytes with a request of 5. -/
theorem claim5_io_short_stream_witness :
    ([1, 2, 3] : List Nat).length < 5 ∧
    ((IoReader.forward_read_str ⟨[1, 2, 3], Buffer.empty⟩ 5
        (Except.ok : Visitor (List Nat))).1 =
      Except.error (ErrorKind.Io IoErr.UnexpectedEof) ∧
      (IoReader.forward_read_bytes ⟨[1, 2, 3], Buffer.empty⟩ 5
        (Except.ok : Visitor (List Nat))).1 =
      Except.error (ErrorKind.Io IoErr.UnexpectedEof) ∧
      (IoReader.get_byte_buffer ⟨[1, 2, 3], Buffer.empty⟩ 5).1 =
      Except.error (ErrorKind.Io IoErr.UnexpectedEof)) :=
  ⟨by decide, claim5_io_short_stream [1, 2, 3] Buffer.empty 5 (by decide) Except.ok⟩

/-- C6: a successful `get_byte_buffer(k)` on an `IoReader` returns an
owned buffer holding exactly the next `k` bytes of the stream and
replaces the scratch buffer with a fresh empty one, so two consecutive
calls return buffers drawn from consecutive stream positions: the
pieces concatenate to the stream's first `k + k2` bytes, and the
second call again starts from a fresh empty scratch buffer. -/
theorem claim6_io_take_buffer_consecutive (s : List Nat) (buf : Buffer) (k k2 : Nat)
    (hk2 : k + k2 ≤ s.length) :
    IoReader.get_byte_buffer ⟨s, buf⟩ k =
      (Except.ok (s.take k), ⟨s.drop k, Buffer.empty⟩) ∧
    IoReader.get_byte_buffer ⟨s.drop k, Buffer.empty⟩ k2 =
      (Except.ok ((s.drop k).take k2), ⟨(s.drop k).drop k2, Buffer.empty⟩) ∧
    s.take k ++ (s.drop k).take k2 = s.take (k + k2) := by
  have hk : k ≤ s.length := le_trans (Nat.le_add_right k k2) hk2
  have hk2' : k2 ≤ (s.drop k).length := by
    simp only [List.length_drop]; omega
  obtain ⟨c1, hc1⟩ := fill_buffer_ok s buf k hk
  obtain ⟨c2, hc2⟩ := fill_buffer_ok (s.drop k) Buffer.empty k2 hk2'
  refine ⟨?_, ?_, (List.take_add s k k2).symm⟩
  · rw [IoReader.get_byte_buffer, hc1]
  · rw [IoReader.get_byte_buffer, hc2]

/-- Witness for C6 at stream `[1, 2, 3, 4, 5]`, `k = 2`, `k2 = 2`. -/
theorem claim6_io_take_buffer_consecutive_witness :
    2 + 2 ≤ ([1, 2, 3, 4, 5] : List Nat).length ∧
    (IoReader.get_byte_buffer ⟨[1, 2, 3, 4, 5], ⟨[9], 1⟩⟩ 2 =
      (Except.ok (([1, 2, 3, 4, 5] : List Nat).take 2),
       ⟨([1, 2, 3, 4, 5] : List Nat).drop 2, Buffer.empty⟩) ∧
      IoReader.get_byte_buffer ⟨([1, 2, 3, 4, 5] : List Nat).drop 2, Buffer.empty⟩ 2 =
      (Except.ok ((([1, 2, 3, 4, 5] : List Nat).drop 2).take 2),
       ⟨(([1, 2, 3, 4, 5] : List Nat).drop 2).drop 2, Buffer.empty⟩) ∧
      ([1, 2, 3, 4, 5] : List Nat).take 2 ++ (([1, 2, 3, 4, 5] : List Nat).drop 2).take 2 =
        ([1, 2, 3, 4, 5] : List Nat).take (2 + 2)) :=
  ⟨by decide, claim6_io_take_buffer_consecutive [1, 2, 3, 4, 5] ⟨[9], 1⟩ 2 2 (by decide)⟩

/-- C8: a read of requested length 0 always succeeds, hands or returns
an empty span, and leaves the source untouched: the slice of a
`SliceReader` is unchanged and an `IoReader` consumes no bytes from
the underlying stream. -/
theorem claim8_zero_length_reads {α : Type} (s t : List Nat) (buf : Buffer)
    (v : Visitor α) :
    SliceReader.forward_read_str ⟨s⟩ 0 v = (v [], ⟨s⟩) ∧
    SliceReader.forward_read_bytes ⟨s⟩ 0 v = (v [], ⟨s⟩) ∧
    SliceReader.get_byte_buffer ⟨s⟩ 0 = (Except.ok [], ⟨s⟩) ∧
    (IoReader.forward_read_str ⟨t, buf⟩ 0 v).1 = v [] ∧
    (IoReader.forward_read_str ⟨t, buf⟩ 0 v).2.stream = t ∧
    (IoReader.forward_read_bytes ⟨t, buf⟩ 0 v).1 = v [] ∧
    (IoReader.forward_read_bytes ⟨t, buf⟩ 0 v).2.stream = t ∧
    IoReader.get_byte_buffer ⟨t, buf⟩ 0 = (Except.ok [], ⟨t, Buffer.empty⟩) := by
  obtain ⟨c, hc⟩ := fill_buffer_ok t buf 0 (Nat.zero_le _)
  refine ⟨?_, ?_, ?_, ?_, ?_, ?_, ?_, ?_⟩
  · simp [SliceReader.forward_read_str, utf8Validate, utf8ValidateFrom_nil]
  · simp [SliceReader.forward_read_bytes]
  · simp [SliceReader.get_byte_buffer]
  · rw [IoReader.forward_read_str, hc]; simp [utf8Validate, utf8ValidateFrom_nil]
  · rw [IoReader.forward_read_str, hc]; simp [utf8Validate, utf8ValidateFrom_nil]
  · rw [IoReader.forward_read_bytes, hc]; simp
  · rw [IoReader.forward_read_bytes, hc]; simp
  · rw [IoReader.get_byte_buffer, hc]; simp

/-- Witness for C8 at slice `[1, 2]`, stream `[3, 4]`, buffer `[9]` of
capacity 1, with the identity visitor. -/
theorem claim8_zero_length_reads_witness :
    SliceReader.forward_read_str ⟨[1, 2]⟩ 0 (Except.ok : Visitor (List Nat)) =
      (Except.ok [], ⟨[1, 2]⟩) ∧
    SliceReader.forward_read_bytes ⟨[1, 2]⟩ 0 (Except.ok : Visitor (List Nat)) =
      (Except.ok [], ⟨[1, 2]⟩) ∧
    SliceReader.get_byte_buffer ⟨[1, 2]⟩ 0 = (Except.ok [], ⟨[1, 2]⟩) ∧
    (IoReader.forward_read_str ⟨[3, 4], ⟨[9], 1⟩⟩ 0 (Except.ok : Visitor (List Nat))).1 =
      Except.ok [] ∧
    (IoReader.forward_read_str ⟨[3, 4], ⟨[9], 1⟩⟩ 0 (Except.ok : Visitor (List Nat))).2.stream =
      [3, 4] ∧
    (IoReader.forward_read_bytes ⟨[3, 4], ⟨[9], 1⟩⟩ 0 (Except.ok : Visitor (List Nat))).1 =
      Except.ok [] ∧
    (IoReader.forward_read_bytes ⟨[3, 4], ⟨[9], 1⟩⟩ 0 (Except.ok : Visitor (List Nat))).2.stream =
      [3, 4] ∧
    IoReader.get_byte_buffer ⟨[3, 4], ⟨[9], 1⟩⟩ 0 = (Except.ok [], ⟨[3, 4], Buffer.empty⟩) :=
  claim8_zero_length_reads [1, 2] [3, 4] ⟨[9], 1⟩ Except.ok

/-- C7: for an `IoReader` over any stream, a sequence of successful
reads each requesting `k` bytes hands the visitor, in order, exactly
the consecutive `k`-byte blocks of the stream: the `i`-th call yields
bytes `[i·k, (i+1)·k)` of the stream's content, and afterwards the
stream is positioned past the `n·k` consumed bytes. -/
theorem claim7_io_reads_consecutive_blocks (s : List Nat) (buf : Buffer) (k n : Nat)
    (h : n * k ≤ s.length) :
    ∃ endbuf, readBlocks ⟨s, buf⟩ k n =
      some ((List.range n).map (fun i => (s.drop (i * k)).take k),
            ⟨s.drop (n * k), endbuf⟩) := by
  induction n generalizing s buf with
  | zero => exact ⟨buf, by simp [readBlocks]⟩
  | succ n ih =>
    rw [Nat.succ_mul] at h
    have hk : k ≤ s.length := le_trans (Nat.le_add_left k (n * k)) h
    have hrest : n * k ≤ (s.drop k).length := by
      simp only [List.length_drop]; omega
    obtain ⟨c, hc⟩ := io_forward_read_bytes_ok s buf k hk (fun bs => Except.ok bs)
    obtain ⟨endbuf, hrec⟩ := ih (s.drop k) ⟨s.take k, c⟩ hrest
    refine ⟨endbuf, ?_⟩
    have hcomp : (fun i => ((s.drop k).drop (i * k)).take k) =
        ((fun i => (s.drop (i * k)).take k) ∘ Nat.succ) := by
      funext i
      simp only [Function.comp_apply]
      rw [List.drop_drop, Nat.succ_mul, Nat.add_comm]
    simp only [readBlocks]
    rw [hc]
    simp only [hrec]
    rw [List.range_succ_eq_map, List.map_cons, List.map_map, List.drop_drop, hcomp]
    simp [Nat.succ_mul, Nat.add_comm]

/-- Witness for C7 at stream `[1, 2, 3, 4, 5, 6]`, `k = 2`, `n = 3`. -/
theorem claim7_io_reads_consecutive_blocks_witness :
    3 * 2 ≤ ([1, 2, 3, 4, 5, 6] : List Nat).length ∧
    ∃ endbuf, readBlocks ⟨[1, 2, 3, 4, 5, 6], Buffer.empty⟩ 2 3 =
      some ((List.range 3).map
              (fun i => (([1, 2, 3, 4, 5, 6] : List Nat).drop (i * 2)).take 2),
            ⟨([1, 2, 3, 4, 5, 6] : List Nat).drop (3 * 2), endbuf⟩) :=
  ⟨by decide, claim7_io_reads_consecutive_blocks [1, 2, 3, 4, 5, 6] Buffer.empty 2 3
    (by decide)⟩

/-- C1: for a `SliceReader` over a slice of length `L` and any requested
length `k ≤ L`, each of `forward_read_str` (when the bytes are valid
UTF-8), `forward_read_bytes`, and `get_byte_buffer` succeeds — the two
forwarding reads return exactly the visitor's result on the span — the
span handed to the visitor or returned equals exactly the first `k`
bytes of the slice, and exactly `L − k` bytes remain afterwards.
UTF-8 validity is required only for the `forward_read_str` conjunct:
the byte reads succeed on arbitrary binary data. -/
theorem claim1_slice_inbounds_reads {α : Type} (s : List Nat) (k : Nat)
    (hk : k ≤ s.length) (v : Visitor α) :
    (utf8Validate (s.take k) = none →
      SliceReader.forward_read_str ⟨s⟩ k v = (v (s.take k), ⟨s.drop k⟩)) ∧
    SliceReader.forward_read_bytes ⟨s⟩ k v = (v (s.take k), ⟨s.drop k⟩) ∧
    SliceReader.get_byte_buffer ⟨s⟩ k = (Except.ok (s.take k), ⟨s.drop k⟩) ∧
    (s.take k).length = k ∧ (s.drop k).length = s.length - k := by
  have hnl : ¬ k > s.length := Nat.not_lt.mpr hk
  refine ⟨fun hutf => ?_, ?_, ?_, ?_, ?_⟩
  · simp [SliceReader.forward_read_str, hnl, hutf]
  · simp [SliceReader.forward_read_bytes, hnl]
  · simp [SliceReader.get_byte_buffer, hnl]
  · simp [List.length_take, Nat.min_eq_left hk]
  · simp [List.length_drop]

/-- Witness for C1: the byte reads at the non-UTF-8 slice
`[0xFF, 0x80, 33]` with `k = 2`, and `forward_read_str` at the valid
slice `"hi!"` with `k = 2`, both with the identity visitor. -/
theorem claim1_slice_inbounds_reads_witness :
    2 ≤ ([0xFF, 0x80, 33] : List Nat).length ∧
    SliceReader.forward_read_bytes ⟨[0xFF, 0x80, 33]⟩ 2 (Except.ok : Visitor (List Nat)) =
      (Except.ok (([0xFF, 0x80, 33] : List Nat).take 2), ⟨([0xFF, 0x80, 33] : List Nat).drop 2⟩) ∧
    SliceReader.get_byte_buffer ⟨[0xFF, 0x80, 33]⟩ 2 =
      (Except.ok (([0xFF, 0x80, 33] : List Nat).take 2), ⟨([0xFF, 0x80, 33] : List Nat).drop 2⟩) ∧
    (([0xFF, 0x80, 33] : List Nat).take 2).length = 2 ∧
    (([0xFF, 0x80, 33] : List Nat).drop 2).length = ([0xFF, 0x80, 33] : List Nat).length - 2 ∧
    2 ≤ ([104, 105, 33] : List Nat).length ∧
    utf8Validate (([104, 105, 33] : List Nat).take 2) = none ∧
    SliceReader.forward_read_str ⟨[104, 105, 33]⟩ 2 (Except.ok : Visitor (List Nat)) =
      (Except.ok (([104, 105, 33] : List Nat).take 2), ⟨([104, 105, 33] : List Nat).drop 2⟩) :=
  ⟨by decide,
    (claim1_slice_inbounds_reads [0xFF, 0x80, 33] 2 (by decide) Except.ok).2.1,
    (claim1_slice_inbounds_reads [0xFF, 0x80, 33] 2 (by decide) Except.ok).2.2.1,
    (claim1_slice_inbounds_reads [0xFF, 0x80, 33] 2 (by decide) Except.ok).2.2.2.1,
    (claim1_slice_inbounds_reads [0xFF, 0x80, 33] 2 (by decide) Except.ok).2.2.2.2,
    by decide, by decide,
    (claim1_slice_inbounds_reads [104, 105, 33] 2 (by decide) Except.ok).1 (by decide)⟩

/-- C2: for a `SliceReader` over a slice of length `L` and any requested
length `k > L`, each of `forward_read_str`, `forward_read_bytes`, and
`get_byte_buffer` fails with the unexpected-end-of-input error and
leaves the remaining slice unchanged (still of length `L`). -/
theorem claim2_slice_overlong_reads {α : Type} (s : List Nat) (k : Nat)
    (hk : k > s.length) (v : Visitor α) :
    SliceReader.forward_read_str ⟨s⟩ k v = (Except.error unexpectedEof, ⟨s⟩) ∧
    SliceReader.forward_read_bytes ⟨s⟩ k v = (Except.error unexpectedEof, ⟨s⟩) ∧
    SliceReader.get_byte_buffer ⟨s⟩ k = (Except.error unexpectedEof, ⟨s⟩) := by
  refine ⟨?_, ?_, ?_⟩
  · simp [SliceReader.forward_read_str, hk]
  · simp [SliceReader.forward_read_bytes, hk]
  · simp [SliceReader.get_byte_buffer, hk]

/-- Witness for C2 at the slice `[1, 2]`, `k = 5`. -/
theorem claim2_slice_overlong_reads_witness :
    5 > ([1, 2] : List Nat).length ∧
    (SliceReader.forward_read_str ⟨[1, 2]⟩ 5 (Except.ok : Visitor (List Nat)) =
        (Except.error unexpectedEof, ⟨[1, 2]⟩) ∧
      SliceReader.forward_read_bytes ⟨[1, 2]⟩ 5 (Except.ok : Visitor (List Nat)) =
        (Except.error unexpectedEof, ⟨[1, 2]⟩) ∧
      SliceReader.get_byte_buffer ⟨[1, 2]⟩ 5 = (Except.error unexpectedEof, ⟨[1, 2]⟩)) :=
  ⟨by decide, claim2_slice_overlong_reads [1, 2] 5 (by decide) Except.ok⟩

/-- C9: for a `SliceReader`, the low-level `read` copies
`min(destination length, remaining length)` bytes into the
destination, returns that count, and advances the slice by the same
amount; `read_exact` fails with an end-of-input error whenever the
remaining slice is shorter than the destination. -/
theorem claim9_slice_read_primitives (s : List Nat) (outLen : Nat) :
    (SliceReader.read ⟨s⟩ outLen).1.1 = min outLen s.length ∧
    (SliceReader.read ⟨s⟩ outLen).1.2 = s.take (min outLen s.length) ∧
    (SliceReader.read ⟨s⟩ outLen).2.slice = s.drop (min outLen s.length) ∧
    (SliceReader.read ⟨s⟩ outLen).2.slice.length = s.length - min outLen s.length ∧
    (s.length < outLen →
      SliceReader.read_exact ⟨s⟩ outLen = (Except.error IoErr.UnexpectedEof, ⟨s⟩)) := by
  refine ⟨rfl, rfl, rfl, by simp [SliceReader.read], fun h => ?_⟩
  simp [SliceReader.read_exact, h]

/-- Witness for C9 at the slice `[7, 8, 9]` with destination length 5
(the destination is longer than the slice, so `read` copies 3 bytes
and `read_exact` fails). -/
theorem claim9_slice_read_primitives_witness :
    ([7, 8, 9] : List Nat).length < 5 ∧
    (SliceReader.read ⟨[7, 8, 9]⟩ 5).1.1 = min 5 ([7, 8, 9] : List Nat).length ∧
    (SliceReader.read ⟨[7, 8, 9]⟩ 5).1.2 = ([7, 8, 9] : List Nat).take (min 5 ([7, 8, 9] : List Nat).length) ∧
    (SliceReader.read ⟨[7, 8, 9]⟩ 5).2.slice = ([7, 8, 9] : List Nat).drop (min 5 ([7, 8, 9] : List Nat).length) ∧
    (SliceReader.read ⟨[7, 8, 9]⟩ 5).2.slice.length =
      ([7, 8, 9] : List Nat).length - min 5 ([7, 8, 9] : List Nat).length ∧
    SliceReader.read_exact ⟨[7, 8, 9]⟩ 5 = (Except.error IoErr.UnexpectedEof, ⟨[7, 8, 9]⟩) :=
  ⟨by decide,
    (claim9_slice_read_primitives [7, 8, 9] 5).1,
    (claim9_slice_read_primitives [7, 8, 9] 5).2.1,
    (claim9_slice_read_primitives [7, 8, 9] 5).2.2.1,
    (claim9_slice_read_primitives [7, 8, 9] 5).2.2.2.1,
    (claim9_slice_read_primitives [7, 8, 9] 5).2.2.2.2 (by decide)⟩

/-- C10: for a `SliceReader` with the requested length within bounds
(and, for `forward_read_str`, valid UTF-8), the slice is advanced by
exactly `length` bytes even when the visitor returns an error: the
visitor's error is propagated unchanged, but the bytes still count as
consumed, so a subsequent read starts after them.  UTF-8 validity is
required only for the `forward_read_str` conjunct: `forward_read_bytes`
advances on arbitrary binary data. -/
theorem claim10_slice_advances_on_visitor_error {α : Type} (s : List Nat) (k : Nat)
    (hk : k ≤ s.length) (e : ErrorKind) :
    (utf8Validate (s.take k) = none →
      SliceReader.forward_read_str ⟨s⟩ k (fun _ => (Except.error e : Except ErrorKind α)) =
        (Except.error e, ⟨s.drop k⟩)) ∧
    SliceReader.forward_read_bytes ⟨s⟩ k (fun _ => (Except.error e : Except ErrorKind α)) =
      (Except.error e, ⟨s.drop k⟩) := by
  have hnl : ¬ k > s.length := Nat.not_lt.mpr hk
  refine ⟨fun hutf => ?_, ?_⟩
  · simp [SliceReader.forward_read_str, hnl, hutf]
  · simp [SliceReader.forward_read_bytes, hnl]

/-- Witness for C10 with a visitor that fails with `Custom 7`:
`forward_read_bytes` at the non-UTF-8 slice `[0xFF, 0x80, 99]` and
`forward_read_str` at the valid slice `[97, 98, 99]`, both `k = 2`. -/
theorem claim10_slice_advances_on_visitor_error_witness :
    2 ≤ ([0xFF, 0x80, 99] : List Nat).length ∧
    SliceReader.forward_read_bytes ⟨[0xFF, 0x80, 99]⟩ 2
        (fun _ => (Except.error (ErrorKind.Custom 7) : Except ErrorKind Unit)) =
      (Except.error (ErrorKind.Custom 7), ⟨([0xFF, 0x80, 99] : List Nat).drop 2⟩) ∧
    2 ≤ ([97, 98, 99] : List Nat).length ∧
    utf8Validate (([97, 98, 99] : List Nat).take 2) = none ∧
    SliceReader.forward_read_str ⟨[97, 98, 99]⟩ 2
        (fun _ => (Except.error (ErrorKind.Custom 7) : Except ErrorKind Unit)) =
      (Except.error (ErrorKind.Custom 7), ⟨([97, 98, 99] : List Nat).drop 2⟩) :=
  ⟨by decide,
    (claim10_slice_advances_on_visitor_error [0xFF, 0x80, 99] 2 (by decide)
      (ErrorKind.Custom 7)).2,
    by decide, by decide,
    (claim10_slice_advances_on_visitor_error [97, 98, 99] 2 (by decide)
      (ErrorKind.Custom 7)).1 (by decide)⟩

end Bincode
